import Mathlib

/-!
Verification development for the research-paper-summarizer repository.

Strings are modelled as lists of characters.  The Python regular-expression
substitutions used by the text cleaner are embedded through a small
backtracking matcher whose semantics follow the Python re module
(leftmost match, greedy and lazy quantifiers, word boundaries, lookahead,
anchors with and without the MULTILINE flag, substitution that rescans
from the end of each match).  Every quantified subpattern appearing in the
repository applies to a single-character class, which the embedding
exploits: the quantifier constructor carries a character predicate.
-/

namespace PaperSum

/-- Python str.isspace base set as used by the re module for ASCII text:
space, tab, newline, carriage return, vertical tab, form feed. -/
def pyIsSpace (c : Char) : Bool :=
  c == ' ' || c == '\t' || c == '\n' || c == '\r' || c == Char.ofNat 11 || c == Char.ofNat 12

/-- Python regex word character for ASCII text: alphanumeric or underscore. -/
def isWordC (c : Char) : Bool :=
  c.isAlphanum || c == '_'

/-- Python str.strip: remove leading and trailing whitespace. -/
def pyStrip (s : List Char) : List Char :=
  ((s.dropWhile pyIsSpace).reverse.dropWhile pyIsSpace).reverse

/-- Python str.lower, character by character. -/
def pyLower (s : List Char) : List Char :=
  s.map Char.toLower

/-- Whether a is a leading segment of b. -/
def leadsL : List Char → List Char → Bool
  | [], _ => true
  | _ :: _, [] => false
  | a :: as, b :: bs => a == b && leadsL as bs

/-- Python substring test (needle in haystack). -/
def containsL (needle : List Char) : List Char → Bool
  | [] => needle.isEmpty
  | c :: rest => leadsL needle (c :: rest) || containsL needle rest

/-- Accumulator-based splitter behind pySplitWS; acc is the current word
reversed. -/
def splitAux : List Char → List Char → List (List Char)
  | [], acc => if acc = [] then [] else [acc.reverse]
  | c :: cs, acc =>
    if pyIsSpace c then
      if acc = [] then splitAux cs [] else acc.reverse :: splitAux cs []
    else splitAux cs (c :: acc)

/-- Python str.split with no separator: split on whitespace runs, dropping
empty pieces. -/
def pySplitWS (s : List Char) : List (List Char) :=
  splitAux s []

/-- Python str.split on the fixed separator of two newline characters;
acc is the current piece reversed. -/
def splitNN : List Char → List Char → List (List Char)
  | acc, '\n' :: '\n' :: rest => acc.reverse :: splitNN [] rest
  | acc, c :: rest => splitNN (c :: acc) rest
  | acc, [] => [acc.reverse]

/-- Python str.split on a single newline; acc is the current piece reversed. -/
def splitNL : List Char → List Char → List (List Char)
  | acc, '\n' :: rest => acc.reverse :: splitNL [] rest
  | acc, c :: rest => splitNL (c :: acc) rest
  | acc, [] => [acc.reverse]

/-- Python str.join with a single space separator. -/
def joinSp : List (List Char) → List Char
  | [] => []
  | [s] => s
  | s :: rest => s ++ ' ' :: joinSp rest

/-! ## Regular-expression engine -/

/-- Regular expressions as used by the repository.  Quantifiers (repC) are
restricted to single-character classes, which covers every pattern in the
source.  bol and eol carry the MULTILINE flag of the pattern they occur in. -/
inductive RE where
  | eps
  | cls (p : Char → Bool)
  | repC (lo : Nat) (hi : Option Nat) (greedy : Bool) (p : Char → Bool)
  | cat (a b : RE)
  | alt (a b : RE)
  | grp (n : Nat) (a : RE)
  | look (a : RE)
  | bndry
  | bol (ml : Bool)
  | eol (ml : Bool)

/-- Captured groups, most recent assignment first. -/
abbrev Caps := List (Nat × List Char)

def setCap (caps : Caps) (n : Nat) (v : List Char) : Caps :=
  (n, v) :: caps

def getCap (caps : Caps) (n : Nat) : List Char :=
  match caps.find? (fun p => p.1 == n) with
  | some p => p.2
  | none => []

/-- Length of the maximal prefix of rest matching p, capped by hi. -/
def maxRep (p : Char → Bool) (hi : Option Nat) (rest : List Char) : Nat :=
  let free := (rest.takeWhile p).length
  match hi with
  | some h => min h free
  | none => free

/-- Counts n, n-1, ..., lo (empty when n < lo). -/
def countsDown (n lo : Nat) : List Nat :=
  (List.range (n + 1 - lo)).map (fun i => n - i)

/-- Counts lo, lo+1, ..., n (empty when n < lo). -/
def countsUp (lo n : Nat) : List Nat :=
  (List.range (n + 1 - lo)).map (fun i => lo + i)

def firstSome {α : Type} : List (Option α) → Option α
  | [] => none
  | some x :: _ => some x
  | none :: rest => firstSome rest

/-- The character just before the position reached after consuming c
characters of rest (prev if c = 0). -/
def advPrev (prev : Option Char) (rest : List Char) (c : Nat) : Option Char :=
  match (rest.take c).getLast? with
  | some x => some x
  | none => prev

/-- Backtracking matcher in continuation style.  prev is the character just
before the current position (none at the start of the subject), rest the
remaining subject.  The continuation receives the updated position and
captures; the first success in preference order wins, matching the Python
re engine (alternation prefers the left branch, greedy quantifiers prefer
longer repetitions, lazy ones shorter). -/
def mrun : RE → Option Char → List Char → Caps →
    (Option Char → List Char → Caps → Option (List Char × Caps)) →
    Option (List Char × Caps)
  | .eps, prev, rest, caps, k => k prev rest caps
  | .cls p, _, rest, caps, k =>
    match rest with
    | [] => none
    | c :: rs => if p c then k (some c) rs caps else none
  | .repC lo hi greedy p, prev, rest, caps, k =>
    let n := maxRep p hi rest
    let counts := if greedy then countsDown n lo else countsUp lo n
    firstSome (counts.map (fun c => k (advPrev prev rest c) (rest.drop c) caps))
  | .cat a b, prev, rest, caps, k =>
    mrun a prev rest caps (fun p2 r2 c2 => mrun b p2 r2 c2 k)
  | .alt a b, prev, rest, caps, k =>
    (mrun a prev rest caps k).orElse (fun _ => mrun b prev rest caps k)
  | .grp n a, prev, rest, caps, k =>
    mrun a prev rest caps
      (fun p2 r2 c2 => k p2 r2 (setCap c2 n (rest.take (rest.length - r2.length))))
  | .look a, prev, rest, caps, k =>
    match mrun a prev rest caps (fun _ r2 c2 => some (r2, c2)) with
    | some _ => k prev rest caps
    | none => none
  | .bndry, prev, rest, caps, k =>
    let wb := match prev with
      | some c => isWordC c
      | none => false
    let wa := match rest with
      | c :: _ => isWordC c
      | [] => false
    if wb != wa then k prev rest caps else none
  | .bol ml, prev, rest, caps, k =>
    match prev with
    | none => k prev rest caps
    | some c => if ml && c == '\n' then k prev rest caps else none
  | .eol ml, prev, rest, caps, k =>
    match rest with
    | [] => k prev rest caps
    | c :: rs =>
      if (ml && c == '\n') || (!ml && c == '\n' && rs.isEmpty) then
        k prev rest caps
      else none

/-- Try to match re at the current position; on success return the number of
consumed characters and the captures. -/
def matchHere (re : RE) (prev : Option Char) (rest : List Char) :
    Option (Nat × Caps) :=
  match mrun re prev rest [] (fun _ r2 c2 => some (r2, c2)) with
  | some (r2, c2) => some (rest.length - r2.length, c2)
  | none => none

/-- One element of a replacement template: a literal character or a group
reference. -/
inductive RItem where
  | lit (c : Char)
  | ref (n : Nat)

abbrev Repl := List RItem

def applyRepl (repl : Repl) (caps : Caps) : List Char :=
  (repl.map (fun it =>
    match it with
    | .lit c => [c]
    | .ref n => getCap caps n)).flatten

/-- Literal replacement text. -/
def rlit (s : List Char) : Repl :=
  s.map RItem.lit

/-- Scanning loop of re.sub: at each position try a match; on a match of
length n emit the substituted template and resume after the match (after
copying one character when n = 0), otherwise copy one character.  Matching
always looks at the original characters, so prev advances over the original
subject. -/
def pySubAux : Nat → RE → Repl → Option Char → List Char → List Char
  | 0, _, _, _, rest => rest
  | fuel + 1, re, repl, prev, rest =>
    match matchHere re prev rest with
    | some (n, caps) =>
      if n = 0 then
        applyRepl repl caps ++
          (match rest with
           | [] => []
           | c :: rs => c :: pySubAux fuel re repl (some c) rs)
      else
        applyRepl repl caps ++ pySubAux fuel re repl (advPrev prev rest n) (rest.drop n)
    | none =>
      match rest with
      | [] => []
      | c :: rs => c :: pySubAux fuel re repl (some c) rs

/-- Python re.sub over the whole subject. -/
def pySub (re : RE) (repl : Repl) (s : List Char) : List Char :=
  pySubAux (s.length + 1) re repl none s

/-- Concatenation of a list of regular expressions. -/
def catL (l : List RE) : RE :=
  l.foldr RE.cat RE.eps

/-- Single literal character. -/
def chR (c : Char) : RE :=
  RE.cls (fun x => x == c)

/-- Literal string. -/
def strR (s : String) : RE :=
  catL (s.toList.map chR)

/-- One or more whitespace characters. -/
def ws1 : RE := RE.repC 1 none true pyIsSpace

/-- Zero or more whitespace characters. -/
def ws0 : RE := RE.repC 0 none true pyIsSpace

/-! ## Text cleaner (scripts/preprocess_text.py) -/

/-- Punctuation class of clean_basic_text. -/
def punct1 (c : Char) : Bool :=
  c == ',' || c == '.' || c == '!' || c == '?' || c == ';' || c == ':'

/-- clean_basic_text of scripts/preprocess_text.py.  Regex passes, in source
order: collapse whitespace runs, drop space before punctuation, single space
after punctuation, strip, merge spaced single letters. -/
def clean_basic_text (text : List Char) : List Char :=
  if pyStrip text = [] then []
  else
    let t1 := pySub (RE.repC 1 none true pyIsSpace) (rlit [' ']) text
    let t2 := pySub (catL [ws1, .grp 1 (.cls punct1)]) [RItem.ref 1] t1
    let t3 := pySub (catL [.grp 1 (.cls punct1), ws0]) [RItem.ref 1, RItem.lit ' '] t2
    let t4 := pyStrip t3
    pySub (catL [.bndry, .grp 1 (.cls Char.isLower), ws1,
      .grp 2 (.cls Char.isLower), .bndry]) [RItem.ref 1, RItem.ref 2] t4

/-- clean_pdf_artifacts of scripts/preprocess_text.py: the fourteen regex
passes of the source in order, then a final whitespace collapse and strip. -/
def clean_pdf_artifacts (text : List Char) : List Char :=
  if text = [] then []
  else
    -- [ \s* (\d+) \s* ]  ->  [\1]
    let t1 := pySub (catL [chR '[', ws0, .grp 1 (.repC 1 none true Char.isDigit),
      ws0, chR ']']) (rlit ['['] ++ [RItem.ref 1] ++ rlit [']']) text
    -- ( \s* ([^)]+?) \s* , \s* (\d{4}) \s* )  ->  (\1, \2)
    let t2 := pySub (catL [chR '(', ws0,
      .grp 1 (.repC 1 none false (fun c => !(c == ')'))), ws0, chR ',', ws0,
      .grp 2 (.repC 4 (some 4) true Char.isDigit), ws0, chR ')'])
      (rlit ['('] ++ [RItem.ref 1] ++ rlit [',', ' '] ++ [RItem.ref 2] ++ rlit [')']) t1
    -- (\w) \s* IN \s* (\w) \s+ (\w)  ->  \1 IN \2\3   (IN the element sign)
    let t3 := pySub (catL [.grp 1 (.cls isWordC), ws0, chR '∈', ws0,
      .grp 2 (.cls isWordC), ws1, .grp 3 (.cls isWordC)])
      ([RItem.ref 1] ++ rlit [' ', '∈', ' '] ++ [RItem.ref 2, RItem.ref 3]) t2
    -- \b ([a-zA-Z]) \s+ ([a-zA-Z]) \s* (?=[,\.\s])  ->  \1_\2
    let t4 := pySub (catL [.bndry, .grp 1 (.cls Char.isAlpha), ws1,
      .grp 2 (.cls Char.isAlpha), ws0,
      .look (.cls (fun c => c == ',' || c == '.' || pyIsSpace c))])
      ([RItem.ref 1] ++ rlit ['_'] ++ [RItem.ref 2]) t3
    -- (\w+)- \s+ (\w+)  ->  \1\2
    let t5 := pySub (catL [.grp 1 (.repC 1 none true isWordC), chR '-', ws1,
      .grp 2 (.repC 1 none true isWordC)]) [RItem.ref 1, RItem.ref 2] t4
    -- \b(trans)\s+(former|formation|mit)\b  ->  \1\2
    let t6 := pySub (catL [.bndry, .grp 1 (strR "trans"), ws1,
      .grp 2 (.alt (strR "former") (.alt (strR "formation") (strR "mit"))), .bndry])
      [RItem.ref 1, RItem.ref 2] t5
    -- \b(multi)\s+(head|layer|task)\b  ->  \1-\2
    let t7 := pySub (catL [.bndry, .grp 1 (strR "multi"), ws1,
      .grp 2 (.alt (strR "head") (.alt (strR "layer") (strR "task"))), .bndry])
      ([RItem.ref 1] ++ rlit ['-'] ++ [RItem.ref 2]) t6
    -- \b(self)\s+(attention)\b  ->  \1-\2
    let t8 := pySub (catL [.bndry, .grp 1 (strR "self"), ws1,
      .grp 2 (strR "attention"), .bndry])
      ([RItem.ref 1] ++ rlit ['-'] ++ [RItem.ref 2]) t7
    -- (Figure|Fig|Table|Equation) \s* \.? \s* (\d+)  ->  \1 \2
    let t9 := pySub (catL [.grp 1 (.alt (strR "Figure") (.alt (strR "Fig")
      (.alt (strR "Table") (strR "Equation")))), ws0,
      .repC 0 (some 1) true (fun c => c == '.'), ws0,
      .grp 2 (.repC 1 none true Char.isDigit)])
      ([RItem.ref 1] ++ rlit [' '] ++ [RItem.ref 2]) t8
    -- \b(Figure|Table)\s+\d+[:.].*?(?=\.|dollar)  ->  (removed)
    let t10 := pySub (catL [.bndry, .grp 1 (.alt (strR "Figure") (strR "Table")),
      ws1, .repC 1 none true Char.isDigit, .cls (fun c => c == ':' || c == '.'),
      .repC 0 none false (fun c => !(c == '\n')),
      .look (.alt (.cls (fun c => c == '.')) (.eol false))]) [] t9
    -- (\d+) \s* DEG \s*  ->  \1DEG SPACE   (DEG the degree sign)
    let t11 := pySub (catL [.grp 1 (.repC 1 none true Char.isDigit), ws0,
      chR '°', ws0]) ([RItem.ref 1] ++ rlit ['°', ' ']) t10
    -- (\d+) \s* %  ->  \1%
    let t12 := pySub (catL [.grp 1 (.repC 1 none true Char.isDigit), ws0, chR '%'])
      ([RItem.ref 1] ++ rlit ['%']) t11
    -- \.{3,}  ->  ...
    let t13 := pySub (RE.repC 3 none true (fun c => c == '.')) (rlit ['.', '.', '.']) t12
    -- , \s* ,+  ->  ,
    let t14 := pySub (catL [chR ',', ws0, .repC 1 none true (fun c => c == ',')])
      (rlit [',']) t13
    -- final collapse and strip
    pyStrip (pySub (RE.repC 1 none true pyIsSpace) (rlit [' ']) t14)

/-- clean_academic_text of scripts/preprocess_text.py: author-citation
normalization, the four abbreviation passes in dictionary order, standalone
section-number removal (MULTILINE), equation-reference normalization. -/
def clean_academic_text (text : List Char) : List Char :=
  if text = [] then []
  else
    -- \( ([A-Z][a-z]+) \s+ et \s+ al\. \s* ,? \s* (\d{4}) \)  ->  (\1 et al., \2)
    let t1 := pySub (catL [chR '(',
      .grp 1 (.cat (.cls Char.isUpper) (.repC 1 none true Char.isLower)), ws1,
      strR "et", ws1, strR "al", chR '.', ws0,
      .repC 0 (some 1) true (fun c => c == ','), ws0,
      .grp 2 (.repC 4 (some 4) true Char.isDigit), chR ')'])
      (rlit ['('] ++ [RItem.ref 1] ++ rlit " et al., ".toList ++
        [RItem.ref 2] ++ rlit [')']) text
    let t2 := pySub (catL [.bndry, strR "e.g.", ws0]) (rlit "e.g., ".toList) t1
    let t3 := pySub (catL [.bndry, strR "i.e.", ws0]) (rlit "i.e., ".toList) t2
    let t4 := pySub (catL [.bndry, strR "vs.", ws0]) (rlit "vs. ".toList) t3
    let t5 := pySub (catL [.bndry, strR "etc.", ws0]) (rlit "etc. ".toList) t4
    -- ^\s*\d+\.?\s*$ with MULTILINE  ->  (removed)
    let t6 := pySub (catL [.bol true, ws0, .repC 1 none true Char.isDigit,
      .repC 0 (some 1) true (fun c => c == '.'), ws0, .eol true]) [] t5
    -- (Equation|Eq) \s* \.? \s* \( (\d+) \)  ->  \1 (\2)
    pySub (catL [.grp 1 (.alt (strR "Equation") (strR "Eq")), ws0,
      .repC 0 (some 1) true (fun c => c == '.'), ws0, chR '(',
      .grp 2 (.repC 1 none true Char.isDigit), chR ')'])
      ([RItem.ref 1] ++ rlit [' ', '('] ++ [RItem.ref 2] ++ rlit [')']) t6

/-- clean_text_comprehensive of scripts/preprocess_text.py: the three
cleaning stages in order. -/
def clean_text_comprehensive (text : List Char) : List Char :=
  clean_academic_text (clean_pdf_artifacts (clean_basic_text text))

/-! ## Chunker (chunk_text_for_models of scripts/preprocess_text.py)

The source first calls the external nltk sentence tokenizer and then works
only with the resulting sentence list; the algorithm is embedded over that
list.  A chunk stores the list of sentences joined into it; the text field
of the source dictionary is the space-join of that list (chunkText), which
agrees with the incremental string concatenations of the source because
every stored sentence list is nonempty. -/

/-- Number of words of a sentence: len(sentence.split()). -/
def wcS (s : List Char) : Nat :=
  (pySplitWS s).length

/-- Total word count of a sentence list. -/
def sumWC (l : List (List Char)) : Nat :=
  (l.map wcS).sum

/-- One chunk of the chunker output.  sents lists the sentences joined into
the chunk; word_count, sentence_count and model_type are the dictionary
fields of the source. -/
structure Chunk where
  sents : List (List Char)
  word_count : Nat
  sentence_count : Nat
  model_type : List Char
deriving DecidableEq, Repr

/-- The text field of a chunk: the space-join of its sentences. -/
def chunkText (c : Chunk) : List Char :=
  joinSp c.sents

/-- Chunk created when the source appends a dictionary to the chunk list. -/
def mkChunk (mt : List Char) (cur : List (List Char)) (w : Nat) : Chunk :=
  ⟨cur, w, cur.length, mt⟩

/-- target_words, max_words, min_words selected from model_type, matching
the if chain of the source (default is the bart setting). -/
def chunkParams (model_type : List Char) : Nat × Nat × Nat :=
  if pyLower model_type = "bart".toList then (350, 450, 100)
  else if pyLower model_type = "longformer".toList then (1000, 1200, 300)
  else (350, 450, 100)

/-- Main loop of chunk_text_for_models over the sentence list.  State:
emitted chunks, current sentence group, current word count.  A group is
closed before adding a sentence that would push the count past max_words
(only when the group is nonempty), and closed after adding a sentence once
the count reaches target_words. -/
def chunkLoop (mt : List Char) (maxW target : Nat) :
    List Chunk → List (List Char) → Nat → List (List Char) →
    List Chunk × List (List Char) × Nat
  | chunks, cur, curW, [] => (chunks, cur, curW)
  | chunks, cur, curW, s :: rest =>
    let sw := wcS s
    let chunks1 := if maxW < curW + sw ∧ cur ≠ [] then chunks ++ [mkChunk mt cur curW] else chunks
    let cur1 := if maxW < curW + sw ∧ cur ≠ [] then [] else cur
    let curW1 := if maxW < curW + sw ∧ cur ≠ [] then 0 else curW
    let cur2 := cur1 ++ [s]
    let curW2 := curW1 + sw
    if target ≤ curW2 then
      chunkLoop mt maxW target (chunks1 ++ [mkChunk mt cur2 curW2]) [] 0 rest
    else
      chunkLoop mt maxW target chunks1 cur2 curW2 rest

/-- Merge of the trailing undersized group into the last chunk: the source
appends the joined group to the text, and adds the word and sentence counts. -/
def mergeLast : List Chunk → List (List Char) → Nat → List Chunk
  | [], _, _ => []
  | [c], cur, w =>
    [⟨c.sents ++ cur, c.word_count + w, c.sentence_count + cur.length, c.model_type⟩]
  | c :: c2 :: cs, cur, w => c :: mergeLast (c2 :: cs) cur w

/-- chunk_text_for_models of scripts/preprocess_text.py over the tokenized
sentence list.  After the loop: a remaining group of at least min_words is
emitted; a smaller one is merged into the last chunk when one exists and is
dropped otherwise. -/
def chunk_text_for_models (sentences : List (List Char)) (model_type : List Char) :
    List Chunk :=
  let ps := chunkParams model_type
  let target := ps.1
  let maxW := ps.2.1
  let minW := ps.2.2
  match chunkLoop model_type maxW target [] [] 0 sentences with
  | (chunks, cur, curW) =>
    if cur ≠ [] ∧ minW ≤ curW then chunks ++ [mkChunk model_type cur curW]
    else if cur ≠ [] ∧ chunks ≠ [] then mergeLast chunks cur curW
    else chunks

/-- Concatenation, in order, of the sentences of all chunks. -/
def chunksSents (cs : List Chunk) : List (List Char) :=
  (cs.map Chunk.sents).flatten

/-! ## GROBID tier escalation (scripts/parse_pdf_optimized.py)

The external structuring service is abstracted as a behavior function from
timeout strategy to attempt outcome.  One HTTP attempt either yields a
response with a status code and body, raises a timeout, or raises another
request exception. -/

/-- The four timeout strategies of OptimizedGROBIDProcessor. -/
inductive Strategy where
  | quick
  | normal
  | extended
  | maximum
deriving DecidableEq, Repr

/-- timeout_strategies: the second budget of each strategy. -/
def timeout_strategies : Strategy → Nat
  | .quick => 60
  | .normal => 300
  | .extended => 600
  | .maximum => 900

/-- Outcome of one attempt against the external structuring service. -/
inductive Attempt where
  | resp (status : Nat) (body : List Char)
  | timeout
  | exc
deriving DecidableEq, Repr

/-- estimate_processing_time over the file size in bytes.  The source
compares file_size divided by 1024*1024 against 1, 5 and 15 in floating
point; division by the power of two 2 to the 20 is exact for integer sizes,
so the comparisons are equivalent to integer comparisons against multiples
of 1048576.  (An unreadable file falls back to normal in the source; sizes
are modelled as readable.) -/
def estimate_processing_time (file_size : Nat) : Strategy :=
  if file_size < 1048576 then .quick
  else if file_size < 5 * 1048576 then .normal
  else if file_size < 15 * 1048576 then .extended
  else .maximum

/-- The fixed fallback sequence of process_with_fallback_strategies for each
base strategy. -/
def fallback_sequence : Strategy → List Strategy
  | .quick => [.quick, .normal]
  | .normal => [.normal, .extended]
  | .extended => [.extended, .maximum]
  | .maximum => [.maximum]

/-- Next-larger tier in the escalation order. -/
def nextStrategy : Strategy → Strategy
  | .quick => .normal
  | .normal => .extended
  | .extended => .maximum
  | .maximum => .maximum

/-- The attempt loop of process_with_fallback_strategies: try each strategy
in order; return on an HTTP 200 response; on a non-200 response, a timeout
or any other error continue with the next strategy; raise after the last.
The first component lists the strategies actually attempted. -/
def tryStrategies (beh : Strategy → Attempt) :
    List Strategy → List Strategy × Except Unit (List Char)
  | [] => ([], .error ())
  | s :: rest =>
    match beh s with
    | .resp st body =>
      if st = 200 then ([s], .ok body)
      else
        let r := tryStrategies beh rest
        (s :: r.1, r.2)
    | .timeout =>
      let r := tryStrategies beh rest
      (s :: r.1, r.2)
    | .exc =>
      let r := tryStrategies beh rest
      (s :: r.1, r.2)

/-- process_with_fallback_strategies: estimate the tier from the file size
and run the attempt loop over the fixed fallback sequence. -/
def process_with_fallback_strategies (beh : Strategy → Attempt) (file_size : Nat) :
    List Strategy × Except Unit (List Char) :=
  tryStrategies beh (fallback_sequence (estimate_processing_time file_size))

/-! ## Hybrid generator (hybrid_summary_generator.py) -/

/-- process_single_paper of HybridSummaryGenerator, abstracted over the two
extraction outcomes: the GROBID path result (available only when the
processor was initialized healthy) and the PyPDF2 fallback result.  Returns
the overall outcome together with the number of invocations of the local
fallback extractor. -/
def process_single_paper {α : Type} (grobidAvail pypdfAvail : Bool)
    (grobid : Except Unit α) (pypdf : Except Unit α) :
    Except Unit α × Nat :=
  match grobidAvail, grobid with
  | true, .ok a => (.ok a, 0)
  | _, _ =>
    if pypdfAvail then
      match pypdf with
      | .ok a => (.ok a, 1)
      | .error _ => (.error (), 1)
    else (.error (), 0)

/-- The GROBID leg of process_single_paper expressed through the tier model:
the external result of process_with_fallback_strategies. -/
def grobidLeg (beh : Strategy → Attempt) (file_size : Nat) : Except Unit (List Char) :=
  (process_with_fallback_strategies beh file_size).2

/-! ## PyPDF2 fallback extraction (extract_with_pypdf2) -/

/-- Section keywords of extract_with_pypdf2. -/
def section_keywords : List (List Char) :=
  ["abstract", "introduction", "methodology", "methods",
   "results", "discussion", "conclusion", "references"].map String.toList

/-- A paragraph counts as a section header when some keyword occurs in its
lowercase form and the paragraph is shorter than 100 characters. -/
def isSectionHeader (p : List Char) : Bool :=
  section_keywords.any (fun kw => containsL kw (pyLower p) && decide (p.length < 100))

/-- The paragraph list of extract_with_pypdf2: split the cleaned text on
blank lines, strip each piece, keep the ones longer than 50 characters. -/
def paragraphsOf (full_text : List Char) : List (List Char) :=
  ((splitNN [] full_text).map pyStrip).filter (fun p => 50 < p.length)

/-- Ordered string dictionary with Python update semantics: assignment to an
existing key overwrites in place, otherwise appends. -/
def dictSet (d : List (List Char × List Char)) (k v : List Char) :
    List (List Char × List Char) :=
  if (d.find? (fun p => p.1 == k)).isSome then
    d.map (fun p => if p.1 == k then (k, v) else p)
  else d ++ [(k, v)]

/-- Section accumulation loop of extract_with_pypdf2 over the (at most 20)
paragraphs: a header paragraph flushes the accumulated content under the
current section name and becomes the new section name; any other paragraph
is accumulated.  The trailing content is flushed at the end. -/
def sectLoop : List (List Char) → List (List Char × List Char) → List Char →
    List (List Char) → List (List Char × List Char)
  | [], sections, curSec, curCont =>
    if curCont ≠ [] then dictSet sections curSec (joinSp curCont) else sections
  | p :: rest, sections, curSec, curCont =>
    if isSectionHeader p then
      let sections1 := if curCont ≠ [] then dictSet sections curSec (joinSp curCont) else sections
      sectLoop rest sections1 (pyStrip p) []
    else
      sectLoop rest sections curSec (curCont ++ [p])

/-- Title heuristic: the first line of the cleaned text whose stripped form
has more than 10 and fewer than 200 characters. -/
def firstTitleLine : List (List Char) → List Char
  | [] => "Unknown Title".toList
  | l :: rest =>
    let s := pyStrip l
    if 10 < s.length ∧ s.length < 200 then s else firstTitleLine rest

/-- Abstract heuristic: content (first 500 characters) of the first section
whose key contains the word abstract. -/
def findAbstract : List (List Char × List Char) → List Char
  | [] => []
  | (k, v) :: rest =>
    if containsL "abstract".toList (pyLower k) then v.take 500
    else findAbstract rest

/-- Record returned by extract_with_pypdf2 (processing statistics omitted). -/
structure PaperData where
  title : List Char
  authors : List (List Char)
  abstract : List Char
  sections : List (List Char × List Char)
deriving DecidableEq, Repr

/-- extract_with_pypdf2 of HybridSummaryGenerator over the raw page text
(the PyPDF2 page extraction is external; raw is the concatenated page text).
The text is cleaned, split into paragraphs, and the first 20 paragraphs are
classified into sections; title and abstract use the heuristics of the
source. -/
def extract_with_pypdf2 (raw : List Char) : PaperData :=
  let full_text := clean_text_comprehensive raw
  let paragraphs := paragraphsOf full_text
  let sections := sectLoop (paragraphs.take 20) [] "Content".toList []
  let title := firstTitleLine (splitNL [] full_text)
  let abstract :=
    if containsL "abstract".toList (pyLower full_text) then findAbstract sections
    else []
  ⟨title, [], abstract, sections⟩

/-! ## Task orchestrator (backend/main.py) -/

/-- Task lifecycle status. -/
inductive TStatus where
  | uploaded
  | processing
  | completed
  | failed
deriving DecidableEq, Repr

/-- The status strings used in the task table. -/
def statusStr : TStatus → List Char
  | .uploaded => "uploaded".toList
  | .processing => "processing".toList
  | .completed => "completed".toList
  | .failed => "failed".toList

/-- One entry of processing_results; fields other than the status are
abstracted into file_path and payload. -/
structure TaskInfo where
  status : TStatus
  file_path : List Char
  payload : List Char
deriving DecidableEq, Repr

/-- The in-memory task table, keyed by task identifier. -/
abbrev TaskMap := List (List Char × TaskInfo)

def lookupT (m : TaskMap) (id : List Char) : Option TaskInfo :=
  (m.find? (fun p => p.1 == id)).map (fun p => p.2)

def updateT (m : TaskMap) (id : List Char) (f : TaskInfo → TaskInfo) : TaskMap :=
  m.map (fun p => if p.1 == id then (p.1, f p.2) else p)

/-- process_paper (POST /process/task_id/): reject with 404 when the task is
unknown, with 400 when the task is not in uploaded; otherwise schedule the
background task (second component) and answer processing_started.  The task
table is returned unchanged in every branch: the status write happens inside
the background task, never in the rejected request. -/
def process_paper (tasks : TaskMap) (id : List Char) :
    TaskMap × Option (List Char) × Except (Nat × List Char) (List Char) :=
  match lookupT tasks id with
  | none => (tasks, none, .error (404, "Task ID not found".toList))
  | some info =>
    if info.status ≠ .uploaded then
      (tasks, none, .error (400, "Task is already ".toList ++ statusStr info.status))
    else
      (tasks, some id, .ok "processing_started".toList)

/-- process_paper_sync (POST /process-sync/task_id/): same guards, then run
the generator synchronously; genAvail models whether the hybrid generator
was initialized, run its outcome. -/
def process_paper_sync (tasks : TaskMap) (id : List Char) (genAvail : Bool)
    (run : Except (List Char) (List Char)) :
    TaskMap × Except (Nat × List Char) (List Char) :=
  match lookupT tasks id with
  | none => (tasks, .error (404, "Task ID not found".toList))
  | some info =>
    if info.status ≠ .uploaded then
      (tasks, .error (400, "Task is already ".toList ++ statusStr info.status))
    else
      let t1 := updateT tasks id (fun i => { i with status := .processing })
      if !genAvail then
        (updateT t1 id (fun i => { i with status := .failed }),
         .error (500, "Processing failed: HybridSummaryGenerator not available - check dependencies".toList))
      else
        match run with
        | .ok res =>
          (updateT t1 id (fun i => { i with status := .completed, payload := res }),
           .ok res)
        | .error e =>
          (updateT t1 id (fun i => { i with status := .failed, payload := e }),
           .error (500, "Processing failed: ".toList ++ e))

/-! ## GROBID health check (check_grobid_health of scripts/parse_pdf_optimized.py) -/

/-- The retry delay schedule of check_grobid_health. -/
def retry_delays : List Nat := [2, 5, 10, 15, 20]

/-- The first endpoint path variant probed by the health check. -/
def epLower : List Char := "/api/isalive".toList

/-- The second endpoint path variant probed by the health check. -/
def epCamel : List Char := "/api/isAlive".toList

/-- The two endpoint path variants probed by the health check. -/
def healthEndpoints : List (List Char) := [epLower, epCamel]

/-- Events of one health-check run: an HTTP request at a given attempt and
endpoint, or a sleep of a given number of seconds. -/
inductive HEvent where
  | request (attempt : Nat) (ep : List Char)
  | sleep (secs : Nat)
deriving DecidableEq, Repr

/-- Whether one GET outcome counts as healthy: a response arrived (no
request exception), its status is 200 and the lowercase body contains the
word true. -/
def healthOk : Option (Nat × List Char) → Bool
  | none => false
  | some (st, body) => st == 200 && containsL "true".toList (pyLower body)

/-- Inner endpoint loop of one attempt: probe the endpoints in order and
stop at the first healthy answer. -/
def tryEndpoints (beh : Nat → List Char → Option (Nat × List Char)) (attempt : Nat) :
    List (List Char) → Bool × List HEvent
  | [] => (false, [])
  | ep :: rest =>
    if healthOk (beh attempt ep) then (true, [HEvent.request attempt ep])
    else
      let r := tryEndpoints beh attempt rest
      (r.1, HEvent.request attempt ep :: r.2)

/-- Outer attempt loop: after a failed attempt that is not the last one
(attempt index below max_retries - 1, equivalently a nonempty remainder of
the attempt list) sleep for the scheduled delay, then continue. -/
def healthLoop (beh : Nat → List Char → Option (Nat × List Char)) :
    List Nat → Bool × List HEvent
  | [] => (false, [])
  | a :: rest =>
    let r := tryEndpoints beh a healthEndpoints
    if r.1 then (true, r.2)
    else if rest ≠ [] then
      let r2 := healthLoop beh rest
      (r2.1, r.2 ++ HEvent.sleep (retry_delays.getD a 0) :: r2.2)
    else (false, r.2)

/-- check_grobid_health: five attempts over the two endpoint variants with
the fixed delay schedule between attempts. -/
def check_grobid_health (beh : Nat → List Char → Option (Nat × List Char)) :
    Bool × List HEvent :=
  healthLoop beh (List.range 5)

/-- All requests of a full health-check run, in probe order. -/
def allRequests : List (Nat × List Char) :=
  ((List.range 5).map (fun a => healthEndpoints.map (fun e => (a, e)))).flatten

/-- The event trace of a health-check run in which every request fails: all
ten requests interleaved with the four scheduled sleeps. -/
def fullHealthTrace : List HEvent :=
  [HEvent.request 0 epLower, HEvent.request 0 epCamel,
   HEvent.sleep 2,
   HEvent.request 1 epLower, HEvent.request 1 epCamel,
   HEvent.sleep 5,
   HEvent.request 2 epLower, HEvent.request 2 epCamel,
   HEvent.sleep 10,
   HEvent.request 3 epLower, HEvent.request 3 epCamel,
   HEvent.sleep 15,
   HEvent.request 4 epLower, HEvent.request 4 epCamel]

/-! ## Concrete example inputs used by counterexamples and witnesses -/

/-- A sentence of 80 one-letter words. -/
def sent80 : List Char := joinSp (List.replicate 80 ['a'])

/-- A sentence of 100 one-letter words. -/
def sent100 : List Char := joinSp (List.replicate 100 ['a'])

/-- A sentence of 371 one-letter words. -/
def sent371 : List Char := joinSp (List.replicate 371 ['a'])

/-! ## Lemmas about word splitting and joining -/

@[simp] lemma pyIsSpace_space : pyIsSpace ' ' = true := rfl

lemma splitAux_space (b : List Char) :
    ∀ (a acc : List Char), splitAux (a ++ ' ' :: b) acc = splitAux a acc ++ splitAux b [] := by
  intro a
  induction a with
  | nil =>
    intro acc
    by_cases h : acc = [] <;> simp [splitAux, h]
  | cons c cs ih =>
    intro acc
    by_cases hc : pyIsSpace c = true
    · by_cases ha : acc = [] <;> simp [splitAux, hc, ha, ih]
    · simp [splitAux, hc, ih]

lemma pySplitWS_join : ∀ l : List (List Char),
    pySplitWS (joinSp l) = (l.map pySplitWS).flatten := by
  intro l
  induction l with
  | nil => rfl
  | cons s rest ih =>
    cases rest with
    | nil => simp [joinSp, pySplitWS]
    | cons r rs =>
      show pySplitWS (s ++ ' ' :: joinSp (r :: rs)) = _
      rw [pySplitWS, splitAux_space]
      simp [pySplitWS] at ih ⊢
      exact ih

lemma wcS_joinSp (l : List (List Char)) : wcS (joinSp l) = sumWC l := by
  simp [wcS, pySplitWS_join, sumWC]
  rfl

lemma sumWC_append (a b : List (List Char)) : sumWC (a ++ b) = sumWC a + sumWC b := by
  simp [sumWC]

/-! ## Chunker invariants -/

/-- Internal consistency of a chunk: a nonempty sentence list whose word sum
and length are the recorded counts. -/
def Good (c : Chunk) : Prop :=
  c.sents ≠ [] ∧ c.word_count = sumWC c.sents ∧ c.sentence_count = c.sents.length

lemma chunksSents_append (a b : List Chunk) :
    chunksSents (a ++ b) = chunksSents a ++ chunksSents b := by
  simp [chunksSents]

lemma good_mkChunk (mt : List Char) (cur : List (List Char)) (w : Nat)
    (hne : cur ≠ []) (hw : w = sumWC cur) : Good (mkChunk mt cur w) := by
  exact ⟨hne, hw, rfl⟩

lemma chunkLoop_inv (mt : List Char) (maxW target : Nat) :
    ∀ (sents : List (List Char)) (chunks : List Chunk) (cur : List (List Char)) (curW : Nat),
      curW = sumWC cur → (∀ c ∈ chunks, Good c) →
      (chunkLoop mt maxW target chunks cur curW sents).2.2
          = sumWC (chunkLoop mt maxW target chunks cur curW sents).2.1
      ∧ (∀ c ∈ (chunkLoop mt maxW target chunks cur curW sents).1, Good c)
      ∧ chunksSents (chunkLoop mt maxW target chunks cur curW sents).1
          ++ (chunkLoop mt maxW target chunks cur curW sents).2.1
        = chunksSents chunks ++ cur ++ sents := by
  intro sents
  induction sents with
  | nil =>
    intro chunks cur curW hw hg
    exact ⟨hw, hg, by simp [chunkLoop]⟩
  | cons s rest ih =>
    intro chunks cur curW hw hg
    by_cases hc : maxW < curW + wcS s ∧ cur ≠ []
    · by_cases ht : target ≤ wcS s
      · have hstep : chunkLoop mt maxW target chunks cur curW (s :: rest)
            = chunkLoop mt maxW target
                (chunks ++ [mkChunk mt cur curW, mkChunk mt [s] (wcS s)]) [] 0 rest := by
          simp [chunkLoop, hc, ht]
        have h2 : ∀ c ∈ chunks ++ [mkChunk mt cur curW, mkChunk mt [s] (wcS s)], Good c := by
          intro c hcmem
          rcases List.mem_append.mp hcmem with h | h
          · exact hg c h
          · rcases List.mem_cons.mp h with rfl | h'
            · exact good_mkChunk _ _ _ hc.2 hw
            · rcases List.mem_singleton.mp h' with rfl
              exact good_mkChunk _ _ _ (by simp) (by simp [sumWC])
        obtain ⟨i1, i2, i3⟩ := ih
          (chunks ++ [mkChunk mt cur curW, mkChunk mt [s] (wcS s)]) [] 0 (by simp [sumWC]) h2
        refine ⟨by rw [hstep]; exact i1, by rw [hstep]; exact i2, ?_⟩
        rw [hstep, i3]
        simp [chunksSents_append, chunksSents, mkChunk, List.append_assoc]
      · have hstep : chunkLoop mt maxW target chunks cur curW (s :: rest)
            = chunkLoop mt maxW target (chunks ++ [mkChunk mt cur curW]) [s] (wcS s) rest := by
          simp [chunkLoop, hc, ht]
        have h2 : ∀ c ∈ chunks ++ [mkChunk mt cur curW], Good c := by
          intro c hcmem
          rcases List.mem_append.mp hcmem with h | h
          · exact hg c h
          · rcases List.mem_singleton.mp h with rfl
            exact good_mkChunk _ _ _ hc.2 hw
        obtain ⟨i1, i2, i3⟩ := ih
          (chunks ++ [mkChunk mt cur curW]) [s] (wcS s) (by simp [sumWC]) h2
        refine ⟨by rw [hstep]; exact i1, by rw [hstep]; exact i2, ?_⟩
        rw [hstep, i3]
        simp [chunksSents_append, chunksSents, mkChunk, List.append_assoc]
    · by_cases ht : target ≤ curW + wcS s
      · have hstep : chunkLoop mt maxW target chunks cur curW (s :: rest)
            = chunkLoop mt maxW target
                (chunks ++ [mkChunk mt (cur ++ [s]) (curW + wcS s)]) [] 0 rest := by
          simp [chunkLoop, hc, ht]
        have h2 : ∀ c ∈ chunks ++ [mkChunk mt (cur ++ [s]) (curW + wcS s)], Good c := by
          intro c hcmem
          rcases List.mem_append.mp hcmem with h | h
          · exact hg c h
          · rcases List.mem_singleton.mp h with rfl
            refine good_mkChunk _ _ _ (by simp) ?_
            simp [sumWC_append, sumWC, hw]
        obtain ⟨i1, i2, i3⟩ := ih
          (chunks ++ [mkChunk mt (cur ++ [s]) (curW + wcS s)]) [] 0 (by simp [sumWC]) h2
        refine ⟨by rw [hstep]; exact i1, by rw [hstep]; exact i2, ?_⟩
        rw [hstep, i3]
        simp [chunksSents_append, chunksSents, mkChunk, List.append_assoc]
      · have hstep : chunkLoop mt maxW target chunks cur curW (s :: rest)
            = chunkLoop mt maxW target chunks (cur ++ [s]) (curW + wcS s) rest := by
          simp [chunkLoop, hc, ht]
        obtain ⟨i1, i2, i3⟩ := ih chunks (cur ++ [s]) (curW + wcS s)
          (by simp [sumWC_append, sumWC, hw]) hg
        refine ⟨by rw [hstep]; exact i1, by rw [hstep]; exact i2, ?_⟩
        rw [hstep, i3]
        simp [List.append_assoc]

lemma chunkLoop_bound (mt : List Char) (maxW target : Nat) :
    ∀ (sents : List (List Char)) (chunks : List Chunk) (cur : List (List Char)) (curW : Nat),
      (∀ s ∈ sents, wcS s ≤ maxW) → curW = sumWC cur → curW ≤ maxW →
      (∀ c ∈ chunks, c.word_count ≤ maxW) →
      (∀ c ∈ (chunkLoop mt maxW target chunks cur curW sents).1, c.word_count ≤ maxW)
      ∧ (chunkLoop mt maxW target chunks cur curW sents).2.2 ≤ maxW := by
  intro sents
  induction sents with
  | nil =>
    intro chunks cur curW _ _ hcW hb
    exact ⟨by simpa [chunkLoop] using hb, by simpa [chunkLoop] using hcW⟩
  | cons s rest ih =>
    intro chunks cur curW hs hw hcW hb
    have hsw : wcS s ≤ maxW := hs s (by simp)
    have hrest : ∀ x ∈ rest, wcS x ≤ maxW := fun x hx => hs x (by simp [hx])
    by_cases hc : maxW < curW + wcS s ∧ cur ≠ []
    · by_cases ht : target ≤ wcS s
      · have hstep : chunkLoop mt maxW target chunks cur curW (s :: rest)
            = chunkLoop mt maxW target
                (chunks ++ [mkChunk mt cur curW, mkChunk mt [s] (wcS s)]) [] 0 rest := by
          simp [chunkLoop, hc, ht]
        have h2 : ∀ c ∈ chunks ++ [mkChunk mt cur curW, mkChunk mt [s] (wcS s)],
            c.word_count ≤ maxW := by
          intro c hcmem
          rcases List.mem_append.mp hcmem with h | h
          · exact hb c h
          · rcases List.mem_cons.mp h with rfl | h'
            · exact hcW
            · rcases List.mem_singleton.mp h' with rfl
              exact hsw
        have := ih (chunks ++ [mkChunk mt cur curW, mkChunk mt [s] (wcS s)]) [] 0
          hrest (by simp [sumWC]) (Nat.zero_le _) h2
        exact ⟨by rw [hstep]; exact this.1, by rw [hstep]; exact this.2⟩
      · have hstep : chunkLoop mt maxW target chunks cur curW (s :: rest)
            = chunkLoop mt maxW target (chunks ++ [mkChunk mt cur curW]) [s] (wcS s) rest := by
          simp [chunkLoop, hc, ht]
        have h2 : ∀ c ∈ chunks ++ [mkChunk mt cur curW], c.word_count ≤ maxW := by
          intro c hcmem
          rcases List.mem_append.mp hcmem with h | h
          · exact hb c h
          · rcases List.mem_singleton.mp h with rfl
            exact hcW
        have := ih (chunks ++ [mkChunk mt cur curW]) [s] (wcS s) hrest
          (by simp [sumWC]) hsw h2
        exact ⟨by rw [hstep]; exact this.1, by rw [hstep]; exact this.2⟩
    · have hle : curW + wcS s ≤ maxW := by
        rcases not_and_or.mp hc with h | h
        · omega
        · have hcur : cur = [] := not_not.mp h
          have hz : curW = 0 := by rw [hcur] at hw; simpa [sumWC] using hw
          omega
      by_cases ht : target ≤ curW + wcS s
      · have hstep : chunkLoop mt maxW target chunks cur curW (s :: rest)
            = chunkLoop mt maxW target
                (chunks ++ [mkChunk mt (cur ++ [s]) (curW + wcS s)]) [] 0 rest := by
          simp [chunkLoop, hc, ht]
        have h2 : ∀ c ∈ chunks ++ [mkChunk mt (cur ++ [s]) (curW + wcS s)],
            c.word_count ≤ maxW := by
          intro c hcmem
          rcases List.mem_append.mp hcmem with h | h
          · exact hb c h
          · rcases List.mem_singleton.mp h with rfl
            exact hle
        have := ih (chunks ++ [mkChunk mt (cur ++ [s]) (curW + wcS s)]) [] 0
          hrest (by simp [sumWC]) (Nat.zero_le _) h2
        exact ⟨by rw [hstep]; exact this.1, by rw [hstep]; exact this.2⟩
      · have hstep : chunkLoop mt maxW target chunks cur curW (s :: rest)
            = chunkLoop mt maxW target chunks (cur ++ [s]) (curW + wcS s) rest := by
          simp [chunkLoop, hc, ht]
        have := ih chunks (cur ++ [s]) (curW + wcS s) hrest
          (by simp [sumWC_append, sumWC, hw]) hle hb
        exact ⟨by rw [hstep]; exact this.1, by rw [hstep]; exact this.2⟩

lemma chunkLoop_noemit (mt : List Char) (maxW target : Nat) :
    ∀ (sents : List (List Char)) (chunks : List Chunk) (cur : List (List Char)) (curW : Nat),
      curW + sumWC sents < target → curW + sumWC sents ≤ maxW →
      chunkLoop mt maxW target chunks cur curW sents
        = (chunks, cur ++ sents, curW + sumWC sents) := by
  intro sents
  induction sents with
  | nil =>
    intro chunks cur curW _ _
    simp [chunkLoop, sumWC]
  | cons s rest ih =>
    intro chunks cur curW hlt hle
    have hsum : sumWC (s :: rest) = wcS s + sumWC rest := by simp [sumWC]
    have hc : ¬(maxW < curW + wcS s ∧ cur ≠ []) := by
      rintro ⟨h1, _⟩
      omega
    have ht : ¬(target ≤ curW + wcS s) := by omega
    have hstep : chunkLoop mt maxW target chunks cur curW (s :: rest)
        = chunkLoop mt maxW target chunks (cur ++ [s]) (curW + wcS s) rest := by
      simp [chunkLoop, hc, ht]
    rw [hstep, ih chunks (cur ++ [s]) (curW + wcS s) (by omega) (by omega)]
    simp [List.append_assoc, hsum]
    omega

lemma mergeLast_sents (cur : List (List Char)) (w : Nat) :
    ∀ chunks : List Chunk, chunks ≠ [] →
      chunksSents (mergeLast chunks cur w) = chunksSents chunks ++ cur := by
  intro chunks
  induction chunks with
  | nil => intro h; exact absurd rfl h
  | cons c cs ih =>
    intro _
    cases cs with
    | nil => simp [mergeLast, chunksSents]
    | cons c2 cs2 =>
      have := ih (by simp)
      simp [mergeLast, chunksSents] at this ⊢
      simp [this, List.append_assoc]

lemma mergeLast_good (cur : List (List Char)) (w : Nat) (hw : w = sumWC cur) :
    ∀ chunks : List Chunk, (∀ c ∈ chunks, Good c) →
      ∀ c ∈ mergeLast chunks cur w, Good c := by
  intro chunks
  induction chunks with
  | nil => intro _ c hc; simp [mergeLast] at hc
  | cons c cs ih =>
    intro hg d hd
    cases cs with
    | nil =>
      simp [mergeLast] at hd
      subst hd
      obtain ⟨g1, g2, g3⟩ := hg c (by simp)
      refine ⟨by simp [g1], ?_, ?_⟩
      · simp [sumWC_append, g2, hw]
      · simp [g3]
    | cons c2 cs2 =>
      simp [mergeLast] at hd
      rcases hd with rfl | hd
      · exact hg d (by simp)
      · exact ih (fun x hx => hg x (by simp [List.mem_cons] at hx ⊢; tauto)) d hd

lemma mergeLast_bound (cur : List (List Char)) (w maxW minW : Nat) (hwlt : w < minW) :
    ∀ chunks : List Chunk, (∀ c ∈ chunks, c.word_count ≤ maxW) →
      ∀ c ∈ mergeLast chunks cur w, c.word_count < maxW + minW := by
  intro chunks
  induction chunks with
  | nil => intro _ c hc; simp [mergeLast] at hc
  | cons c cs ih =>
    intro hb d hd
    cases cs with
    | nil =>
      simp [mergeLast] at hd
      subst hd
      have := hb c (by simp)
      simp
      omega
    | cons c2 cs2 =>
      simp [mergeLast] at hd
      rcases hd with rfl | hd
      · have := hb d (by simp)
        omega
      · exact ih (fun x hx => hb x (by simp [List.mem_cons] at hx ⊢; tauto)) d hd

/-- The three parameter triples are positive and ordered: min is positive
and at most both target and max, for every model tag. -/
lemma chunkParams_facts (mt : List Char) :
    1 ≤ (chunkParams mt).2.2 ∧ (chunkParams mt).2.2 ≤ (chunkParams mt).1
    ∧ (chunkParams mt).2.2 ≤ (chunkParams mt).2.1 := by
  unfold chunkParams
  split
  · exact ⟨by norm_num, by norm_num, by norm_num⟩
  · split
    · exact ⟨by norm_num, by norm_num, by norm_num⟩
    · exact ⟨by norm_num, by norm_num, by norm_num⟩

/-- Unfolding of chunk_text_for_models through the result of the main loop. -/
lemma chunk_text_unfold (sents : List (List Char)) (mt : List Char)
    (cs : List Chunk) (cur : List (List Char)) (curW : Nat)
    (hres : chunkLoop mt (chunkParams mt).2.1 (chunkParams mt).1 [] [] 0 sents
      = (cs, cur, curW)) :
    chunk_text_for_models sents mt
      = if cur ≠ [] ∧ (chunkParams mt).2.2 ≤ curW then cs ++ [mkChunk mt cur curW]
        else if cur ≠ [] ∧ cs ≠ [] then mergeLast cs cur curW
        else cs := by
  simp only [chunk_text_for_models]
  rw [hres]

lemma chunk_join (sents : List (List Char)) (mt : List Char)
    (h : (chunkParams mt).2.2 ≤ sumWC sents) :
    chunksSents (chunk_text_for_models sents mt) = sents := by
  rcases hres : chunkLoop mt (chunkParams mt).2.1 (chunkParams mt).1 [] [] 0 sents
    with ⟨cs, cur, curW⟩
  obtain ⟨i1, _, i3⟩ := chunkLoop_inv mt (chunkParams mt).2.1 (chunkParams mt).1 sents [] [] 0
    (by simp [sumWC]) (by intro c hc; simp at hc)
  rw [hres] at i1 i3
  simp only [chunksSents, List.map_nil, List.flatten_nil, List.nil_append] at i3
  rw [chunk_text_unfold sents mt cs cur curW hres]
  by_cases h1 : cur ≠ [] ∧ (chunkParams mt).2.2 ≤ curW
  · rw [if_pos h1, chunksSents_append]
    simpa [chunksSents, mkChunk] using i3
  · rw [if_neg h1]
    by_cases h2 : cur ≠ [] ∧ cs ≠ []
    · rw [if_pos h2, mergeLast_sents cur curW cs h2.2]
      exact i3
    · rw [if_neg h2]
      by_cases hcur : cur = []
      · simpa [hcur] using i3
      · exfalso
        have hcs : cs = [] := by
          by_contra hcs
          exact h2 ⟨hcur, hcs⟩
        rw [hcs] at i3
        simp [chunksSents] at i3
        have i1' : curW = sumWC cur := i1
        have hW : curW = sumWC sents := by rw [i1', i3]
        exact h1 ⟨hcur, by omega⟩

lemma chunk_all_good (sents : List (List Char)) (mt : List Char) :
    ∀ c ∈ chunk_text_for_models sents mt, Good c := by
  rcases hres : chunkLoop mt (chunkParams mt).2.1 (chunkParams mt).1 [] [] 0 sents
    with ⟨cs, cur, curW⟩
  obtain ⟨i1, i2, _⟩ := chunkLoop_inv mt (chunkParams mt).2.1 (chunkParams mt).1 sents [] [] 0
    (by simp [sumWC]) (by intro c hc; simp at hc)
  rw [hres] at i1 i2
  rw [chunk_text_unfold sents mt cs cur curW hres]
  by_cases h1 : cur ≠ [] ∧ (chunkParams mt).2.2 ≤ curW
  · rw [if_pos h1]
    intro c hc
    rcases List.mem_append.mp hc with hm | hm
    · exact i2 c hm
    · rcases List.mem_singleton.mp hm with rfl
      exact good_mkChunk _ _ _ h1.1 i1
  · rw [if_neg h1]
    by_cases h2 : cur ≠ [] ∧ cs ≠ []
    · rw [if_pos h2]
      exact mergeLast_good cur curW i1 cs i2
    · rw [if_neg h2]
      exact i2

lemma chunk_empty_iff (sents : List (List Char)) (mt : List Char) (hne : sents ≠ []) :
    chunk_text_for_models sents mt = [] ↔ sumWC sents < (chunkParams mt).2.2 := by
  constructor
  · intro hempty
    by_contra hge
    have h := chunk_join sents mt (by omega)
    rw [hempty] at h
    simp [chunksSents] at h
    exact hne h
  · intro hlt
    obtain ⟨hmin1, hmint, hminmax⟩ := chunkParams_facts mt
    have hres := chunkLoop_noemit mt (chunkParams mt).2.1 (chunkParams mt).1 sents [] [] 0
      (by omega) (by omega)
    rw [chunk_text_unfold sents mt [] sents (0 + sumWC sents) (by simpa using hres)]
    have h1 : ¬(sents ≠ [] ∧ (chunkParams mt).2.2 ≤ 0 + sumWC sents) := by
      rintro ⟨_, hh⟩
      omega
    have h2 : ¬(sents ≠ [] ∧ ([] : List Chunk) ≠ []) := by
      rintro ⟨_, hh⟩
      exact hh rfl
    rw [if_neg h1, if_neg h2]

lemma chunk_bound (sents : List (List Char)) (mt : List Char)
    (h : ∀ s ∈ sents, wcS s ≤ (chunkParams mt).2.1) :
    ∀ c ∈ chunk_text_for_models sents mt,
      c.word_count < (chunkParams mt).2.1 + (chunkParams mt).2.2 := by
  rcases hres : chunkLoop mt (chunkParams mt).2.1 (chunkParams mt).1 [] [] 0 sents
    with ⟨cs, cur, curW⟩
  obtain ⟨hmin1, _, _⟩ := chunkParams_facts mt
  obtain ⟨b1, b2⟩ := chunkLoop_bound mt (chunkParams mt).2.1 (chunkParams mt).1 sents [] [] 0
    h (by simp [sumWC]) (Nat.zero_le _) (by intro c hc; simp at hc)
  rw [hres] at b1 b2
  have b2' : curW ≤ (chunkParams mt).2.1 := b2
  have b1' : ∀ c ∈ cs, c.word_count ≤ (chunkParams mt).2.1 := b1
  rw [chunk_text_unfold sents mt cs cur curW hres]
  by_cases h1 : cur ≠ [] ∧ (chunkParams mt).2.2 ≤ curW
  · rw [if_pos h1]
    intro c hc
    rcases List.mem_append.mp hc with hm | hm
    · have := b1' c hm
      omega
    · rcases List.mem_singleton.mp hm with rfl
      simp [mkChunk]
      omega
  · rw [if_neg h1]
    by_cases h2 : cur ≠ [] ∧ cs ≠ []
    · rw [if_pos h2]
      have hwlt : curW < (chunkParams mt).2.2 := by
        by_contra hh
        exact h1 ⟨h2.1, by omega⟩
      exact mergeLast_bound cur curW _ _ hwlt cs b1'
    · rw [if_neg h2]
      intro c hc
      have := b1' c hc
      omega

/-! ## Lemmas about the cleaner on degenerate inputs -/

lemma pyStrip_all_space (s : List Char) (h : ∀ c ∈ s, pyIsSpace c = true) :
    pyStrip s = [] := by
  have h1 : s.dropWhile pyIsSpace = [] := List.dropWhile_eq_nil_iff.mpr h
  simp [pyStrip, h1]

lemma clean_basic_all_space (s : List Char) (h : ∀ c ∈ s, pyIsSpace c = true) :
    clean_basic_text s = [] := by
  simp [clean_basic_text, pyStrip_all_space s h]

lemma clean_comprehensive_all_space (s : List Char) (h : ∀ c ∈ s, pyIsSpace c = true) :
    clean_text_comprehensive s = [] := by
  rw [clean_text_comprehensive, clean_basic_all_space s h]
  rfl

/-! ## Lemmas about the tier escalation -/

lemma tryStrategies_nil (beh : Strategy → Attempt) :
    tryStrategies beh [] = ([], .error ()) := rfl

lemma tryStrategies_single (beh : Strategy → Attempt) (s : Strategy) :
    (tryStrategies beh [s]).1 = [s] := by
  cases hb : beh s with
  | resp st body =>
    by_cases h200 : st = 200 <;> simp [tryStrategies, hb, h200]
  | timeout => simp [tryStrategies, hb]
  | exc => simp [tryStrategies, hb]

lemma tryStrategies_timeout_cons (beh : Strategy → Attempt) (s : Strategy)
    (rest : List Strategy) (hb : beh s = .timeout) :
    (tryStrategies beh (s :: rest)).1 = s :: (tryStrategies beh rest).1 := by
  simp [tryStrategies, hb]

/-- When no tier ever answers 200, the attempt loop fails. -/
lemma tryStrategies_all_fail (beh : Strategy → Attempt)
    (h : ∀ s body, beh s ≠ .resp 200 body) :
    ∀ L : List Strategy, (tryStrategies beh L).2 = .error () := by
  intro L
  induction L with
  | nil => rfl
  | cons s rest ih =>
    cases hb : beh s with
    | resp st body =>
      have h200 : st ≠ 200 := by
        intro hst
        exact h s body (by rw [hb, hst])
      simp [tryStrategies, hb, h200, ih]
    | timeout => simp [tryStrategies, hb, ih]
    | exc => simp [tryStrategies, hb, ih]

/-! ## Lemmas about the fallback section heuristic -/

lemma sectLoop_noheader :
    ∀ (ps : List (List Char)) (sections : List (List Char × List Char))
      (curSec : List Char) (curCont : List (List Char)),
      (∀ p ∈ ps, isSectionHeader p = false) →
      sectLoop ps sections curSec curCont
        = if curCont ++ ps = [] then sections
          else dictSet sections curSec (joinSp (curCont ++ ps)) := by
  intro ps
  induction ps with
  | nil =>
    intro sections curSec curCont _
    by_cases hc : curCont = [] <;> simp [sectLoop, hc]
  | cons p rest ih =>
    intro sections curSec curCont hh
    have hp : isSectionHeader p = false := hh p (by simp)
    have hrest : ∀ q ∈ rest, isSectionHeader q = false := fun q hq => hh q (by simp [hq])
    rw [show sectLoop (p :: rest) sections curSec curCont
        = sectLoop rest sections curSec (curCont ++ [p]) by simp [sectLoop, hp]]
    rw [ih sections curSec (curCont ++ [p]) hrest]
    simp

/-! ## Lemmas about the health check -/

lemma tryEndpoints_true_iff (beh : Nat → List Char → Option (Nat × List Char)) (a : Nat) :
    ∀ eps : List (List Char),
      (tryEndpoints beh a eps).1 = true ↔ ∃ ep ∈ eps, healthOk (beh a ep) = true := by
  intro eps
  induction eps with
  | nil => simp [tryEndpoints]
  | cons ep rest ih =>
    by_cases h : healthOk (beh a ep) = true
    · simp [tryEndpoints, h]
    · simp [tryEndpoints, h, ih]

lemma healthLoop_true_iff (beh : Nat → List Char → Option (Nat × List Char)) :
    ∀ attempts : List Nat,
      (healthLoop beh attempts).1 = true
        ↔ ∃ a ∈ attempts, ∃ ep ∈ healthEndpoints, healthOk (beh a ep) = true := by
  intro attempts
  induction attempts with
  | nil => simp [healthLoop]
  | cons a rest ih =>
    by_cases h : (tryEndpoints beh a healthEndpoints).1 = true
    · have := (tryEndpoints_true_iff beh a healthEndpoints).mp h
      simp [healthLoop, h]
      exact Or.inl this
    · have hnone : ¬∃ ep ∈ healthEndpoints, healthOk (beh a ep) = true :=
        fun hex => h ((tryEndpoints_true_iff beh a healthEndpoints).mpr hex)
      by_cases hr : rest = []
      · subst hr
        have hstep : healthLoop beh [a] = (false, (tryEndpoints beh a healthEndpoints).2) := by
          simp [healthLoop, h]
        rw [hstep]
        constructor
        · intro hf
          simp at hf
        · rintro ⟨x, hx, ep, hep, hok⟩
          rcases List.mem_singleton.mp hx with rfl
          exact absurd ⟨ep, hep, hok⟩ hnone
      · have hstep : healthLoop beh (a :: rest)
            = ((healthLoop beh rest).1,
               (tryEndpoints beh a healthEndpoints).2
                 ++ HEvent.sleep (retry_delays.getD a 0) :: (healthLoop beh rest).2) := by
          simp [healthLoop, h, hr]
        rw [hstep]
        simp only []
        rw [ih]
        constructor
        · rintro ⟨x, hx, hex⟩
          exact ⟨x, by simp [hx], hex⟩
        · rintro ⟨x, hx, hex⟩
          rcases List.mem_cons.mp hx with rfl | hx
          · exact absurd hex hnone
          · exact ⟨x, hx, hex⟩

/-! ## Claim theorems -/

set_option maxRecDepth 100000

/-- C1 counterexample: the full cleaning pipeline is not idempotent.  On the
input consisting of the three words x-, y-, z the hyphen-rejoin pass fires a
second time on its own output (the scan resumes after each match, so the
second broken hyphenation is only repaired by a second run). -/
theorem c1_counterexample :
    clean_text_comprehensive (clean_text_comprehensive "x- y- z".toList)
      ≠ clean_text_comprehensive "x- y- z".toList := by
  decide

/-- C1 (amended): the cleaning pipeline is idempotent on the empty string
and on every whitespace-only string (both clean to the empty string), but
not on every input. -/
theorem c1_idempotent_on_whitespace (s : List Char)
    (h : ∀ c ∈ s, pyIsSpace c = true) :
    clean_text_comprehensive (clean_text_comprehensive s) = clean_text_comprehensive s := by
  rw [clean_comprehensive_all_space s h]
  rfl

/-- C1 witness: the amended idempotence applied to a single-space string. -/
theorem c1_witness :
    clean_text_comprehensive (clean_text_comprehensive " ".toList)
      = clean_text_comprehensive " ".toList :=
  c1_idempotent_on_whitespace " ".toList (by decide)

/-- C2 counterexample: for a single short sentence the chunker returns no
chunks at all, so concatenating the chunk texts does not reproduce the
sentence. -/
theorem c2_counterexample :
    chunksSents (chunk_text_for_models ["Hi.".toList] "bart".toList)
      ≠ ["Hi.".toList] := by
  decide

/-- C2 (amended): whenever the total word count of the tokenized input
reaches the tag minimum, concatenating the sentence lists of all chunks, in
order, reproduces every sentence of the input exactly once and no sentence
is split across chunks; below the minimum the chunk list is empty and the
sentences are dropped. -/
theorem c2_chunk_reconstruction (sents : List (List Char)) (mt : List Char)
    (h : (chunkParams mt).2.2 ≤ sumWC sents) :
    chunksSents (chunk_text_for_models sents mt) = sents :=
  chunk_join sents mt h

/-- C2 witness: reconstruction for a one-sentence input of 100 words under
the bart tag. -/
theorem c2_witness :
    chunksSents (chunk_text_for_models [sent100] "bart".toList) = [sent100] :=
  c2_chunk_reconstruction [sent100] "bart".toList (by decide)

/-- C3 counterexample: chunk word counts are not within the tag bounds: on
two sentences of 80 and 371 words the bart chunker emits two chunks whose
first has 80 words, below the minimum of 100, although it is not a sole
first-and-only chunk. -/
theorem c3_counterexample :
    (chunk_text_for_models [sent80, sent371] "bart".toList).map Chunk.word_count
      = [80, 371]
    ∧ 80 < (chunkParams "bart".toList).2.2
    ∧ (chunk_text_for_models [sent80, sent371] "bart".toList).length = 2 :=
  ⟨by decide, by decide, by decide⟩

/-- C3 (amended): any chunk closed because the next sentence would overflow
the maximum may be smaller than the minimum; the upper bound holds in the
weakened form that, when every sentence has at most max words, every chunk
has fewer than max plus min words (at most max except a merged final
chunk). -/
theorem c3_chunk_upper_bound (sents : List (List Char)) (mt : List Char)
    (h : ∀ s ∈ sents, wcS s ≤ (chunkParams mt).2.1) :
    ∀ c ∈ chunk_text_for_models sents mt,
      c.word_count < (chunkParams mt).2.1 + (chunkParams mt).2.2 :=
  chunk_bound sents mt h

/-- C3 witness: the upper bound applied to the single chunk produced from a
one-sentence input of 100 words under the bart tag. -/
theorem c3_witness :
    (⟨[sent100], 100, 1, "bart".toList⟩ : Chunk).word_count
      < (chunkParams "bart".toList).2.1 + (chunkParams "bart".toList).2.2 :=
  c3_chunk_upper_bound [sent100] "bart".toList (by decide) _ (by decide)

/-- C4 counterexample: a non-empty input does yield an empty chunk list:
one short sentence below the minimum with no previous chunk is dropped, not
emitted. -/
theorem c4_counterexample :
    chunk_text_for_models ["Hi.".toList] "bart".toList = []
    ∧ (["Hi.".toList] : List (List Char)) ≠ [] :=
  ⟨by decide, by decide⟩

/-- C4 (amended): a final undersized group is merged into the previous
chunk when one exists, but with no previous chunk it is dropped: a
non-empty input yields an empty chunk list exactly when its total word
count is below the tag minimum. -/
theorem c4_chunk_empty_iff (sents : List (List Char)) (mt : List Char)
    (hne : sents ≠ []) :
    chunk_text_for_models sents mt = [] ↔ sumWC sents < (chunkParams mt).2.2 :=
  chunk_empty_iff sents mt hne

/-- C4 witness: the emptiness characterization applied to the one-sentence
input Hi. under the bart tag. -/
theorem c4_witness :
    chunk_text_for_models ["Hi.".toList] "bart".toList = []
      ↔ sumWC ["Hi.".toList] < (chunkParams "bart".toList).2.2 :=
  c4_chunk_empty_iff ["Hi.".toList] "bart".toList (by decide)

/-- C5: when the attempt at the tier estimated from the file size times
out, the attempt trace is exactly the estimated tier followed by the
next-larger tier (whose timeout budget is strictly larger), and a document
estimated at the largest tier is attempted exactly once; no attempt is made
past the largest tier. -/
theorem c5_timeout_retry (beh : Strategy → Attempt) (file_size : Nat)
    (hb : beh (estimate_processing_time file_size) = .timeout) :
    (process_with_fallback_strategies beh file_size).1
      = (if estimate_processing_time file_size = Strategy.maximum
         then [Strategy.maximum]
         else [estimate_processing_time file_size,
               nextStrategy (estimate_processing_time file_size)])
    ∧ (estimate_processing_time file_size ≠ Strategy.maximum →
        timeout_strategies (estimate_processing_time file_size)
          < timeout_strategies (nextStrategy (estimate_processing_time file_size))) := by
  cases hbase : estimate_processing_time file_size with
  | quick =>
    rw [hbase] at hb
    refine ⟨?_, fun _ => by decide⟩
    have h1 : (process_with_fallback_strategies beh file_size).1
        = (tryStrategies beh [Strategy.quick, Strategy.normal]).1 := by
      simp [process_with_fallback_strategies, hbase, fallback_sequence]
    rw [h1, tryStrategies_timeout_cons beh _ _ hb, tryStrategies_single]
    simp [nextStrategy]
  | normal =>
    rw [hbase] at hb
    refine ⟨?_, fun _ => by decide⟩
    have h1 : (process_with_fallback_strategies beh file_size).1
        = (tryStrategies beh [Strategy.normal, Strategy.extended]).1 := by
      simp [process_with_fallback_strategies, hbase, fallback_sequence]
    rw [h1, tryStrategies_timeout_cons beh _ _ hb, tryStrategies_single]
    simp [nextStrategy]
  | extended =>
    rw [hbase] at hb
    refine ⟨?_, fun _ => by decide⟩
    have h1 : (process_with_fallback_strategies beh file_size).1
        = (tryStrategies beh [Strategy.extended, Strategy.maximum]).1 := by
      simp [process_with_fallback_strategies, hbase, fallback_sequence]
    rw [h1, tryStrategies_timeout_cons beh _ _ hb, tryStrategies_single]
    simp [nextStrategy]
  | maximum =>
    rw [hbase] at hb
    refine ⟨?_, fun hne => absurd rfl hne⟩
    have h1 : (process_with_fallback_strategies beh file_size).1
        = (tryStrategies beh [Strategy.maximum]).1 := by
      simp [process_with_fallback_strategies, hbase, fallback_sequence]
    rw [h1, tryStrategies_single]
    simp

/-- C5 witness: a service that always times out, on a zero-byte file
(estimated quick), is attempted at quick and then once more at normal. -/
theorem c5_witness :
    (process_with_fallback_strategies (fun _ => Attempt.timeout) 0).1
      = (if estimate_processing_time 0 = Strategy.maximum
         then [Strategy.maximum]
         else [estimate_processing_time 0, nextStrategy (estimate_processing_time 0)]) :=
  (c5_timeout_retry (fun _ => Attempt.timeout) 0 rfl).1

/-- C6 counterexample: after a non-timeout failure (an HTTP 500 response)
at the estimated tier, the loop does try the next-larger tier instead of
abandoning the external service: the attempt trace for a 2 MB file has two
tiers. -/
theorem c6_counterexample :
    ((fun _ => Attempt.resp 500 []) : Strategy → Attempt) Strategy.normal
      ≠ Attempt.timeout
    ∧ estimate_processing_time (2 * 1048576) = Strategy.normal
    ∧ (process_with_fallback_strategies (fun _ => Attempt.resp 500 []) (2 * 1048576)).1
        = [Strategy.normal, Strategy.extended] :=
  ⟨by decide, by decide, by decide⟩

/-- C6 (amended): on any failure, timeout or not, the loop continues with
the next tier of the fixed sequence; once every tier has failed, the
pipeline invokes the local fallback extractor exactly once and the overall
call fails exactly when the fallback itself fails. -/
theorem c6_fallback_once (beh : Strategy → Attempt) (file_size : Nat)
    (pypdf : Except Unit (List Char))
    (h : ∀ s body, beh s ≠ .resp 200 body) :
    process_single_paper true true (grobidLeg beh file_size) pypdf = (pypdf, 1) := by
  have hg : grobidLeg beh file_size = .error () := tryStrategies_all_fail beh h _
  rw [show process_single_paper true true (grobidLeg beh file_size) pypdf
      = process_single_paper true true (Except.error ()) pypdf by rw [hg]]
  cases pypdf with
  | ok a => rfl
  | error e => cases e; rfl

/-- C6 witness: with a service that always times out and a succeeding
fallback, the hybrid pipeline succeeds after exactly one fallback
invocation. -/
theorem c6_witness :
    process_single_paper true true (grobidLeg (fun _ => Attempt.timeout) 0)
        (Except.ok "ok".toList)
      = (Except.ok "ok".toList, 1) :=
  c6_fallback_once (fun _ => Attempt.timeout) 0 (Except.ok "ok".toList)
    (fun _ _ h => Attempt.noConfusion h)

/-- C7 counterexample: a text with no recognizable section keyword whose
cleaned form has no paragraph longer than 50 characters yields an empty
sections mapping, not a mapping with the single key Content. -/
theorem c7_counterexample :
    (∀ p ∈ paragraphsOf (clean_text_comprehensive "hello world".toList),
        isSectionHeader p = false)
    ∧ (extract_with_pypdf2 "hello world".toList).sections = []
    ∧ (extract_with_pypdf2 "hello world".toList).sections.map Prod.fst
        ≠ ["Content".toList] :=
  ⟨by decide, by decide, by decide⟩

/-- C7 (amended): when no paragraph of the cleaned text is classified as a
section header, the first up to 20 qualifying paragraphs are filed under
the single default section Content and the mapping has exactly that one
key, provided at least one paragraph survives the 50-character filter;
otherwise the mapping is empty. -/
theorem c7_single_default_section (raw : List Char)
    (h : ∀ p ∈ paragraphsOf (clean_text_comprehensive raw), isSectionHeader p = false) :
    (extract_with_pypdf2 raw).sections
      = if paragraphsOf (clean_text_comprehensive raw) = [] then []
        else [("Content".toList,
               joinSp ((paragraphsOf (clean_text_comprehensive raw)).take 20))] := by
  have hsections : (extract_with_pypdf2 raw).sections
      = sectLoop ((paragraphsOf (clean_text_comprehensive raw)).take 20) []
          "Content".toList [] := rfl
  rw [hsections,
    sectLoop_noheader _ _ _ _ (fun p hp => h p (List.take_subset _ _ hp))]
  by_cases hp : paragraphsOf (clean_text_comprehensive raw) = []
  · simp [hp, dictSet]
  · have htake : (paragraphsOf (clean_text_comprehensive raw)).take 20 ≠ [] := by
      cases hps : paragraphsOf (clean_text_comprehensive raw) with
      | nil => exact absurd hps hp
      | cons q qs => simp [List.take]
    simp [hp, htake, dictSet]

/-- C7 witness: the amended statement applied to the text hello world,
whose cleaned form has no qualifying paragraph. -/
theorem c7_witness :
    (extract_with_pypdf2 "hello world".toList).sections
      = if paragraphsOf (clean_text_comprehensive "hello world".toList) = [] then []
        else [("Content".toList,
               joinSp ((paragraphsOf (clean_text_comprehensive "hello world".toList)).take 20))] :=
  c7_single_default_section "hello world".toList (by decide)

/-- C8: a start-processing request, asynchronous or synchronous, for a task
whose status is not uploaded is rejected with the conflict error (HTTP 400,
task already in its current state), no background task is scheduled, and
the task table is returned unchanged. -/
theorem c8_reject_non_uploaded (tasks : TaskMap) (id : List Char) (info : TaskInfo)
    (genAvail : Bool) (run : Except (List Char) (List Char))
    (hlook : lookupT tasks id = some info) (hst : info.status ≠ TStatus.uploaded) :
    process_paper tasks id
      = (tasks, none, .error (400, "Task is already ".toList ++ statusStr info.status))
    ∧ process_paper_sync tasks id genAvail run
      = (tasks, .error (400, "Task is already ".toList ++ statusStr info.status)) := by
  constructor
  · simp [process_paper, hlook, hst]
  · simp [process_paper_sync, hlook, hst]

/-- C8 witness: rejection of both processing endpoints on a task in the
processing state. -/
theorem c8_witness :
    process_paper [("t1".toList, (⟨TStatus.processing, [], []⟩ : TaskInfo))] "t1".toList
      = ([("t1".toList, ⟨TStatus.processing, [], []⟩)], none,
         .error (400, "Task is already ".toList ++ statusStr TStatus.processing))
    ∧ process_paper_sync [("t1".toList, (⟨TStatus.processing, [], []⟩ : TaskInfo))]
        "t1".toList true (.ok [])
      = ([("t1".toList, ⟨TStatus.processing, [], []⟩)],
         .error (400, "Task is already ".toList ++ statusStr TStatus.processing)) :=
  c8_reject_non_uploaded _ _ ⟨TStatus.processing, [], []⟩ true (.ok [])
    (by decide) (by decide)

/-- C9: the health check returns false only after all five attempts over
both endpoint variants fail, with the fixed delays 2, 5, 10 and 15 seconds
slept between consecutive attempts; it returns true exactly when some
attempt on either variant yields HTTP 200 with a true marker, and a success
on the very first probe ends the check immediately. -/
theorem c9_health_check (beh : Nat → List Char → Option (Nat × List Char)) :
    ((∀ a ∈ List.range 5, ∀ ep ∈ healthEndpoints, healthOk (beh a ep) = false) →
      check_grobid_health beh = (false, fullHealthTrace))
    ∧ ((check_grobid_health beh).1 = true
        ↔ ∃ a ∈ List.range 5, ∃ ep ∈ healthEndpoints, healthOk (beh a ep) = true)
    ∧ (healthOk (beh 0 epLower) = true →
        check_grobid_health beh = (true, [HEvent.request 0 epLower])) := by
  refine ⟨?_, healthLoop_true_iff beh (List.range 5), ?_⟩
  · intro h
    have h00 : healthOk (beh 0 epLower) = false :=
      h 0 (by decide) _ (by simp [healthEndpoints])
    have h01 : healthOk (beh 0 epCamel) = false :=
      h 0 (by decide) _ (by simp [healthEndpoints])
    have h10 : healthOk (beh 1 epLower) = false :=
      h 1 (by decide) _ (by simp [healthEndpoints])
    have h11 : healthOk (beh 1 epCamel) = false :=
      h 1 (by decide) _ (by simp [healthEndpoints])
    have h20 : healthOk (beh 2 epLower) = false :=
      h 2 (by decide) _ (by simp [healthEndpoints])
    have h21 : healthOk (beh 2 epCamel) = false :=
      h 2 (by decide) _ (by simp [healthEndpoints])
    have h30 : healthOk (beh 3 epLower) = false :=
      h 3 (by decide) _ (by simp [healthEndpoints])
    have h31 : healthOk (beh 3 epCamel) = false :=
      h 3 (by decide) _ (by simp [healthEndpoints])
    have h40 : healthOk (beh 4 epLower) = false :=
      h 4 (by decide) _ (by simp [healthEndpoints])
    have h41 : healthOk (beh 4 epCamel) = false :=
      h 4 (by decide) _ (by simp [healthEndpoints])
    show healthLoop beh (List.range 5) = _
    rw [show List.range 5 = [0, 1, 2, 3, 4] from rfl]
    simp [healthLoop, tryEndpoints, healthEndpoints, retry_delays,
      h00, h01, h10, h11, h20, h21, h30, h31, h40, h41, fullHealthTrace]
  · intro h
    show healthLoop beh (List.range 5) = _
    rw [show List.range 5 = [0, 1, 2, 3, 4] from rfl]
    simp [healthLoop, tryEndpoints, healthEndpoints, h]

/-- C9 witness: a permanently unreachable service makes the health check
return false after the full trace of ten requests and four sleeps. -/
theorem c9_witness :
    check_grobid_health (fun _ _ => none) = (false, fullHealthTrace) :=
  (c9_health_check (fun _ _ => none)).1 (by decide)

/-- C10: every chunk is internally consistent: its word count equals the
number of whitespace-separated words of its text, its sentence count equals
the number of sentences joined into it, and that count is at least one;
this holds through the final-chunk merge. -/
theorem c10_chunk_counts (sents : List (List Char)) (mt : List Char) :
    ∀ c ∈ chunk_text_for_models sents mt,
      c.word_count = wcS (chunkText c)
      ∧ c.sentence_count = c.sents.length
      ∧ 1 ≤ c.sentence_count := by
  intro c hc
  obtain ⟨g1, g2, g3⟩ := chunk_all_good sents mt c hc
  refine ⟨?_, g3, ?_⟩
  · rw [chunkText, wcS_joinSp, g2]
  · rw [g3]
    cases hs : c.sents with
    | nil => exact absurd hs g1
    | cons a l => simp

/-- C10 witness: the count invariants on the single chunk produced from a
100-word sentence under the bart tag. -/
theorem c10_witness :
    ((⟨[sent100], 100, 1, "bart".toList⟩ : Chunk)
        ∈ chunk_text_for_models [sent100] "bart".toList)
    ∧ ((⟨[sent100], 100, 1, "bart".toList⟩ : Chunk).word_count
          = wcS (chunkText ⟨[sent100], 100, 1, "bart".toList⟩)
        ∧ (⟨[sent100], 100, 1, "bart".toList⟩ : Chunk).sentence_count
          = (⟨[sent100], 100, 1, "bart".toList⟩ : Chunk).sents.length
        ∧ 1 ≤ (⟨[sent100], 100, 1, "bart".toList⟩ : Chunk).sentence_count) :=
  ⟨by decide, c10_chunk_counts [sent100] "bart".toList _ (by decide)⟩

end PaperSum
